import Mathlib

/-
Verification of the epistemic state-tracking core of pokeepistemic
(src/kripke.py): possible worlds, the public-announcement elimination
update, and the modal / probabilistic query operators.

Python strings are modelled at character level as `List Char`; Python
sets as `Finset`; Python floats produced by `probability` (an exact
integer division `count / len`) as `ℚ`; a raised exception as the
`Except.error` branch, carrying the message, and — for methods that
mutate the model — the model state at the moment the exception
propagates.  Python set iteration order is unspecified, and every loop
in the source is order-insensitive (the only exception raised inside a
loop, the unknown-proposition `ValueError`, depends solely on the
proposition, not on the world), so the loops are embedded as their
order-independent descriptions over `Finset`.
-/

namespace PokeEpistemic

/-- A Python string, at character level. -/
abbrev Str := List Char

/-- Character list of a string literal. -/
def chars (s : String) : Str := s.toList

/-- Python `s.startswith(pre)`: `isPre pre s` is true when `pre` is an
initial run of `s`. -/
def isPre : Str → Str → Bool
  | [], _ => true
  | _ :: _, [] => false
  | a :: as, b :: bs => a == b && isPre as bs

/-- Python `s.split(":", 1)[1]`: everything after the first colon.  In
the source this is only reached under a branch whose matched kind ends
with the first colon of the string. -/
def afterColon : Str → Str
  | [] => []
  | c :: rest => if c = ':' then rest else afterColon rest

deriving instance DecidableEq for Except

/-- `World` from src/kripke.py: a candidate configuration for the
opponent's Pokemon.  (Python hashes and compares worlds by `id` alone;
the two collections of the model never hold two distinct-attribute
worlds with one `id`, and no claim exercises that aliasing, so the
structural equality below is faithful for everything proved here.) -/
structure World where
  id : Str
  pokemon : Str
  moveset : Finset Str
  item : Str
  ability : Str
deriving DecidableEq

/-- Message of the `ValueError` raised by `World.satisfies` on an
unrecognized proposition kind. -/
def unknownMsg (p : Str) : Str := chars "Unknown proposition format: " ++ p

/-- `World.satisfies` from src/kripke.py, branch for branch: the five
recognized kind markers in source order, then the raising `else`. -/
def World.satisfies (w : World) (p : Str) : Except Str Bool :=
  if isPre (chars "has_move:") p then
    Except.ok (decide (afterColon p ∈ w.moveset))
  else if isPre (chars "has_item:") p then
    Except.ok (decide (w.item = afterColon p))
  else if isPre (chars "has_ability:") p then
    Except.ok (decide (w.ability = afterColon p))
  else if isPre (chars "not_has_move:") p then
    Except.ok (decide (afterColon p ∉ w.moveset))
  else if isPre (chars "not_has_item:") p then
    Except.ok (decide (w.item ≠ afterColon p))
  else
    Except.error (unknownMsg p)

/-- True when `satisfies` raises on this world/proposition pair. -/
def satErr (w : World) (p : Str) : Bool :=
  match World.satisfies w p with
  | Except.error _ => true
  | Except.ok _ => false

/-- The five kind markers `World.satisfies` recognizes. -/
def recognizedProp (p : Str) : Bool :=
  isPre (chars "has_move:") p || isPre (chars "has_item:") p ||
  isPre (chars "has_ability:") p || isPre (chars "not_has_move:") p ||
  isPre (chars "not_has_item:") p

/-- `KripkeModel` from src/kripke.py: the live hypothesis space
(`worlds`, the spec's `surviving`) and the eliminated worlds. -/
structure KripkeModel where
  worlds : Finset World
  eliminated : Finset World
deriving DecidableEq

/-- `KripkeModel.__init__`: both collections start empty. -/
def KripkeModel.empty : KripkeModel := ⟨∅, ∅⟩

/-- `KripkeModel.add_world`. -/
def KripkeModel.add_world (m : KripkeModel) (w : World) : KripkeModel :=
  ⟨insert w m.worlds, m.eliminated⟩

/-- One record of the `sets` argument of
`add_worlds_from_pokemon_data`: a Python dict that may be missing any
of the three required keys (an absent key is `none`; accessing it
raises `KeyError`). -/
structure PokeSetRecord where
  moves : Option (List Str)
  item : Option Str
  ability : Option Str
deriving DecidableEq

/-- Message of the Python `KeyError` for a missing dict key. -/
def keyErrMsg (k : Str) : Str := chars "KeyError: " ++ k

/-- Decimal rendering of the index used in the generated world id
`f"{pokemon}_{i}"`. -/
def natChars (i : Nat) : Str := (Nat.repr i).toList

/-- The body of one iteration of `add_worlds_from_pokemon_data`'s
loop: build the `World` for record `i`, looking the three keys up in
the order the constructor call evaluates them (`moves`, `item`,
`ability`); a missing key raises before the world exists. -/
def buildWorld (pokemon : Str) (i : Nat) (s : PokeSetRecord) : Except Str World :=
  match s.moves with
  | none => Except.error (keyErrMsg (chars "moves"))
  | some mv =>
    match s.item with
    | none => Except.error (keyErrMsg (chars "item"))
    | some it =>
      match s.ability with
      | none => Except.error (keyErrMsg (chars "ability"))
      | some ab =>
        Except.ok ⟨pokemon ++ chars "_" ++ natChars i, pokemon, mv.toFinset, it, ab⟩

/-- The loop of `add_worlds_from_pokemon_data`: records are processed
in order; each successfully built world is added immediately; a raise
propagates with the worlds added so far still in the model. -/
def addWorldsLoop (pokemon : Str) :
    KripkeModel → List PokeSetRecord → Nat → Except (Str × KripkeModel) KripkeModel
  | m, [], _ => Except.ok m
  | m, s :: rest, i =>
    match buildWorld pokemon i s with
    | Except.error e => Except.error (e, m)
    | Except.ok w => addWorldsLoop pokemon (m.add_world w) rest (i + 1)

/-- `KripkeModel.add_worlds_from_pokemon_data` from src/kripke.py. -/
def KripkeModel.add_worlds_from_pokemon_data (m : KripkeModel) (pokemon : Str)
    (sets : List PokeSetRecord) : Except (Str × KripkeModel) KripkeModel :=
  addWorldsLoop pokemon m sets 0

/-- What the seeding loop leaves behind when it stops: all records
before the first invalid one, turned into worlds and added; nothing
from the invalid record onward. -/
def seedRun (pokemon : Str) : KripkeModel → List PokeSetRecord → Nat → KripkeModel
  | m, [], _ => m
  | m, s :: rest, i =>
    match buildWorld pokemon i s with
    | Except.error _ => m
    | Except.ok w => seedRun pokemon (m.add_world w) rest (i + 1)

/-- `KripkeModel.public_announcement` from src/kripke.py.  The loop
first collects `to_eliminate` — raising, before any mutation, the
unknown-format error if `satisfies` raises on a world (the error does
not depend on the world, see `satErr_eq`); only then are the two
collections updated. -/
def public_announcement (m : KripkeModel) (p : Str) :
    Except (Str × KripkeModel) (Nat × KripkeModel) :=
  if ∃ w ∈ m.worlds, satErr w p = true then
    Except.error (unknownMsg p, m)
  else
    let toElim := m.worlds.filter (fun w => World.satisfies w p = Except.ok false)
    Except.ok (toElim.card, ⟨m.worlds \ toElim, m.eliminated ∪ toElim⟩)

/-- `KripkeModel.knows` from src/kripke.py: vacuously true on an empty
model (before the proposition is ever evaluated), otherwise `all`. -/
def knows (m : KripkeModel) (p : Str) : Except Str Bool :=
  if m.worlds = ∅ then
    Except.ok true
  else if ∃ w ∈ m.worlds, satErr w p = true then
    Except.error (unknownMsg p)
  else
    Except.ok (decide (∀ w ∈ m.worlds, World.satisfies w p = Except.ok true))

/-- `KripkeModel.possibly` from src/kripke.py: `any` over the worlds
(false on an empty model, without evaluating the proposition). -/
def possibly (m : KripkeModel) (p : Str) : Except Str Bool :=
  if ∃ w ∈ m.worlds, satErr w p = true then
    Except.error (unknownMsg p)
  else
    Except.ok (decide (∃ w ∈ m.worlds, World.satisfies w p = Except.ok true))

/-- `KripkeModel.probability` from src/kripke.py: 0.0 on an empty
model, else the satisfying fraction under the uniform distribution. -/
def probability (m : KripkeModel) (p : Str) : Except Str ℚ :=
  if m.worlds = ∅ then
    Except.ok 0
  else if ∃ w ∈ m.worlds, satErr w p = true then
    Except.error (unknownMsg p)
  else
    Except.ok (((m.worlds.filter (fun w => World.satisfies w p = Except.ok true)).card : ℚ) /
      (m.worlds.card : ℚ))

/-- Modelled from the spec: the repository's src has no `negate`
function; §8 of the spec uses one, described only as flipping the
polarity of the proposition.  Polarity in the string encoding is the
`not_` marker, so negation strips a leading `not_` or prepends one. -/
def negate (p : Str) : Str :=
  if isPre (chars "not_") p then p.drop 4 else chars "not_" ++ p

/-- A sequence of `public_announcement` calls on one model; an
exception aborts the sequence, as in Python. -/
def runAnnouncements : KripkeModel → List Str → Except (Str × KripkeModel) KripkeModel
  | m, [] => Except.ok m
  | m, p :: ps =>
    match public_announcement m p with
    | Except.error e => Except.error e
    | Except.ok (_, m') => runAnnouncements m' ps

/-! Concrete data for witnesses and counterexamples, patterned on the
demo at the bottom of src/kripke.py. -/

/-- A Garchomp set with Swords Dance and a Focus Sash. -/
def gw0 : World :=
  ⟨chars "Garchomp_0", chars "Garchomp",
    {chars "Earthquake", chars "Swords Dance"}, chars "Focus Sash", chars "Rough Skin"⟩

/-- A Garchomp set without Swords Dance, holding a Rocky Helmet. -/
def gw1 : World :=
  ⟨chars "Garchomp_1", chars "Garchomp",
    {chars "Earthquake", chars "Fire Fang"}, chars "Rocky Helmet", chars "Rough Skin"⟩

/-- A freshly seeded two-world model. -/
def mDemo : KripkeModel := ⟨{gw0, gw1}, ∅⟩

/-- `mDemo` after announcing `has_move:Swords Dance`. -/
def mAfterSD : KripkeModel := ⟨{gw0}, {gw1}⟩

/-- `mDemo` after an announcement no world satisfies. -/
def mAfterNone : KripkeModel := ⟨∅, {gw0, gw1}⟩

/-- A move proposition one demo world satisfies. -/
def pSD : Str := chars "has_move:Swords Dance"

/-- A move proposition both demo worlds satisfy. -/
def pEQ : Str := chars "has_move:Earthquake"

/-- A move proposition no demo world satisfies. -/
def pNone : Str := chars "has_move:Splash"

/-- A proposition with an unrecognized kind marker. -/
def pBad : Str := chars "speed:fast"

/-- An ability proposition both demo worlds satisfy. -/
def pAbility : Str := chars "has_ability:Rough Skin"

/-- A seed record with all three required keys. -/
def goodRec : PokeSetRecord :=
  ⟨some [chars "Earthquake"], some (chars "Focus Sash"), some (chars "Rough Skin")⟩

/-- A seed record missing the required `item` key. -/
def badRec : PokeSetRecord :=
  ⟨some [chars "Earthquake"], none, some (chars "Rough Skin")⟩

/-- The world `goodRec` seeds at index 0 for `Garchomp`. -/
def seededWorld : World :=
  ⟨chars "Garchomp_0", chars "Garchomp", {chars "Earthquake"},
    chars "Focus Sash", chars "Rough Skin"⟩

/-- Where seeding `[goodRec, badRec]` into an empty model stops. -/
def mSeedFail : KripkeModel := ⟨{seededWorld}, ∅⟩

/-! Helper lemmas about the character-level proposition format. -/

theorem isPre_self_append (pre t : Str) : isPre pre (pre ++ t) = true := by
  induction pre with
  | nil => rfl
  | cons a as ih => simp [isPre, ih]

theorem isPre_iff (pre s : Str) : isPre pre s = true ↔ ∃ t, s = pre ++ t := by
  induction pre generalizing s with
  | nil => simp [isPre]
  | cons a as ih =>
    cases s with
    | nil => simp [isPre]
    | cons b bs =>
      simp only [isPre, Bool.and_eq_true, beq_iff_eq, ih, List.cons_append,
        List.cons.injEq]
      constructor
      · rintro ⟨rfl, t, rfl⟩
        exact ⟨t, rfl, rfl⟩
      · rintro ⟨t, rfl, rfl⟩
        exact ⟨rfl, t, rfl⟩

theorem satErr_eq (w : World) (p : Str) : satErr w p = !recognizedProp p := by
  unfold satErr World.satisfies recognizedProp
  split_ifs with h1 h2 h3 h4 h5 <;> simp_all

theorem satErr_false_cases (w : World) (p : Str) (h : satErr w p = false) :
    World.satisfies w p = Except.ok true ∨ World.satisfies w p = Except.ok false := by
  unfold satErr at h
  rcases hs : World.satisfies w p with e | b
  · rw [hs] at h
    simp at h
  · cases b
    · exact Or.inr rfl
    · exact Or.inl rfl

theorem satisfies_total (w : World) (p : Str) (h : recognizedProp p = true) :
    World.satisfies w p = Except.ok true ∨ World.satisfies w p = Except.ok false := by
  refine satErr_false_cases w p ?_
  rw [satErr_eq, h]
  rfl

theorem recognized_cases (p : Str) (h : recognizedProp p = true) :
    (∃ v, p = chars "has_move:" ++ v) ∨ (∃ v, p = chars "has_item:" ++ v) ∨
    (∃ v, p = chars "has_ability:" ++ v) ∨ (∃ v, p = chars "not_has_move:" ++ v) ∨
    (∃ v, p = chars "not_has_item:" ++ v) := by
  unfold recognizedProp at h
  simp only [Bool.or_eq_true] at h
  rcases h with ((((h | h) | h) | h) | h) <;>
    [exact Or.inl ((isPre_iff _ _).mp h);
     exact Or.inr (Or.inl ((isPre_iff _ _).mp h));
     exact Or.inr (Or.inr (Or.inl ((isPre_iff _ _).mp h)));
     exact Or.inr (Or.inr (Or.inr (Or.inl ((isPre_iff _ _).mp h))));
     exact Or.inr (Or.inr (Or.inr (Or.inr ((isPre_iff _ _).mp h))))]

theorem pub_ok_spec (m : KripkeModel) (p : Str) (n : Nat) (m' : KripkeModel)
    (h : public_announcement m p = Except.ok (n, m')) :
    m'.worlds = m.worlds \ m.worlds.filter (fun w => World.satisfies w p = Except.ok false) ∧
    m'.eliminated = m.eliminated ∪ m.worlds.filter (fun w => World.satisfies w p = Except.ok false) ∧
    n = (m.worlds.filter (fun w => World.satisfies w p = Except.ok false)).card ∧
    ∀ w ∈ m.worlds, satErr w p = false := by
  unfold public_announcement at h
  split at h
  · exact absurd h (by simp)
  · next hc =>
    simp only [Except.ok.injEq, Prod.mk.injEq] at h
    obtain ⟨hn, hm⟩ := h
    subst hm
    refine ⟨rfl, rfl, hn.symm, ?_⟩
    intro w hw
    by_contra hfalse
    exact hc ⟨w, hw, by simpa using hfalse⟩

theorem pub_error_spec (m : KripkeModel) (p : Str) (e : Str) (m' : KripkeModel)
    (h : public_announcement m p = Except.error (e, m')) :
    e = unknownMsg p ∧ m' = m := by
  unfold public_announcement at h
  split at h
  · simp only [Except.error.injEq, Prod.mk.injEq] at h
    exact ⟨h.1.symm, h.2.symm⟩
  · exact absurd h (by simp)

theorem worlds_sdiff_filter (m : KripkeModel) (p : Str)
    (hok : ∀ w ∈ m.worlds, satErr w p = false) :
    m.worlds \ m.worlds.filter (fun w => World.satisfies w p = Except.ok false) =
      m.worlds.filter (fun w => World.satisfies w p = Except.ok true) := by
  ext w
  simp only [Finset.mem_sdiff, Finset.mem_filter, not_and]
  constructor
  · rintro ⟨hw, hnf⟩
    rcases satErr_false_cases w p (hok w hw) with ht | hf
    · exact ⟨hw, ht⟩
    · exact absurd hf (hnf hw)
  · rintro ⟨hw, ht⟩
    refine ⟨hw, fun _ hf => ?_⟩
    rw [ht] at hf
    simp at hf

/-- C1: `public_announcement` partitions the surviving worlds into
those satisfying the proposition (which stay) and the rest (which move
to `eliminated`), returning the number dropped; on an empty model it
is a no-op returning 0; and when no surviving world satisfies the
proposition it returns the prior size of `worlds` and empties it. -/
theorem c1_public_announcement_partitions (m : KripkeModel) (p : Str) :
    (∀ n m', public_announcement m p = Except.ok (n, m') →
      m'.worlds = m.worlds.filter (fun w => World.satisfies w p = Except.ok true) ∧
      m'.eliminated = m.eliminated ∪
        m.worlds.filter (fun w => World.satisfies w p = Except.ok false) ∧
      n = (m.worlds.filter (fun w => World.satisfies w p = Except.ok false)).card) ∧
    (m.worlds = ∅ → public_announcement m p = Except.ok (0, m)) ∧
    (∀ n m', public_announcement m p = Except.ok (n, m') →
      (∀ w ∈ m.worlds, World.satisfies w p ≠ Except.ok true) →
      n = m.worlds.card ∧ m'.worlds = ∅) := by
  refine ⟨?_, ?_, ?_⟩
  · intro n m' h
    obtain ⟨hw, he, hn, hok⟩ := pub_ok_spec m p n m' h
    exact ⟨hw.trans (worlds_sdiff_filter m p hok), he, hn⟩
  · intro hempty
    obtain ⟨W, E⟩ := m
    simp only at hempty
    subst hempty
    simp [public_announcement]
  · intro n m' h hnone
    obtain ⟨hw, _, hn, hok⟩ := pub_ok_spec m p n m' h
    have hfull : m.worlds.filter (fun w => World.satisfies w p = Except.ok false) =
        m.worlds := by
      refine Finset.filter_true_of_mem ?_
      intro w hwm
      rcases satErr_false_cases w p (hok w hwm) with ht | hf
      · exact absurd ht (hnone w hwm)
      · exact hf
    constructor
    · rw [hn, hfull]
    · rw [hw, hfull, Finset.sdiff_self]

/-- C1 witness: the three parts instantiated on concrete models. -/
theorem c1_witness :
    (mAfterSD.worlds = mDemo.worlds.filter (fun w => World.satisfies w pSD = Except.ok true) ∧
      mAfterSD.eliminated = mDemo.eliminated ∪
        mDemo.worlds.filter (fun w => World.satisfies w pSD = Except.ok false) ∧
      1 = (mDemo.worlds.filter (fun w => World.satisfies w pSD = Except.ok false)).card) ∧
    public_announcement KripkeModel.empty pSD = Except.ok (0, KripkeModel.empty) ∧
    (2 = mDemo.worlds.card ∧ mAfterNone.worlds = ∅) :=
  ⟨(c1_public_announcement_partitions mDemo pSD).1 1 mAfterSD (by decide),
   (c1_public_announcement_partitions KripkeModel.empty pSD).2.1 rfl,
   (c1_public_announcement_partitions mDemo pNone).2.2 2 mAfterNone (by decide) (by decide)⟩

theorem pub_ok_subsets (m : KripkeModel) (p : Str) (n : Nat) (m' : KripkeModel)
    (h : public_announcement m p = Except.ok (n, m')) :
    m'.worlds ⊆ m.worlds ∧ m.eliminated ⊆ m'.eliminated ∧
    m'.eliminated ⊆ m.eliminated ∪ m.worlds ∧
    m'.worlds.card ≤ m.worlds.card ∧ m.eliminated.card ≤ m'.eliminated.card ∧
    (Disjoint m.worlds m.eliminated → Disjoint m'.worlds m'.eliminated) := by
  obtain ⟨hw, he, _, _⟩ := pub_ok_spec m p n m' h
  have hsub : m'.worlds ⊆ m.worlds := by
    rw [hw]
    exact Finset.sdiff_subset
  have helim : m.eliminated ⊆ m'.eliminated := by
    rw [he]
    exact Finset.subset_union_left
  have helim' : m'.eliminated ⊆ m.eliminated ∪ m.worlds := by
    rw [he]
    exact Finset.union_subset_union_right (Finset.filter_subset _ _)
  refine ⟨hsub, helim, helim', Finset.card_le_card hsub, Finset.card_le_card helim, ?_⟩
  intro hd
  rw [hw, he]
  rw [Finset.disjoint_union_right]
  exact ⟨Finset.disjoint_of_subset_left Finset.sdiff_subset hd, Finset.sdiff_disjoint⟩

/-- C2: along any successful sequence of announcements from a state
with disjoint `worlds` and `eliminated`, disjointness is preserved,
`|worlds|` never grows, `|eliminated|` never shrinks, and worlds move
only from `worlds` into `eliminated`, never back (quantifying over all
lists covers the state after every intermediate call). -/
theorem c2_elimination_monotone (ps : List Str) : ∀ m m' : KripkeModel,
    Disjoint m.worlds m.eliminated → runAnnouncements m ps = Except.ok m' →
    Disjoint m'.worlds m'.eliminated ∧ m'.worlds ⊆ m.worlds ∧
    m.eliminated ⊆ m'.eliminated ∧ m'.eliminated ⊆ m.eliminated ∪ m.worlds ∧
    m'.worlds.card ≤ m.worlds.card ∧ m.eliminated.card ≤ m'.eliminated.card := by
  induction ps with
  | nil =>
    intro m m' hd h
    unfold runAnnouncements at h
    injection h with h
    subst h
    exact ⟨hd, Finset.Subset.refl _, Finset.Subset.refl _, Finset.subset_union_left,
      le_refl _, le_refl _⟩
  | cons p ps ih =>
    intro m m' hd h
    unfold runAnnouncements at h
    split at h
    · exact absurd h (by simp)
    · next n m₁ heq =>
      obtain ⟨hsub, helim, helim', hcard, hcard', hdisj⟩ :=
        pub_ok_subsets m p n m₁ heq
      obtain ⟨hd', hsub', helim₂, helim₂', hcard₂, hcard₂'⟩ :=
        ih m₁ m' (hdisj hd) h
      refine ⟨hd', hsub'.trans hsub, helim.trans helim₂, ?_,
        hcard₂.trans hcard, hcard'.trans hcard₂'⟩
      refine helim₂'.trans (Finset.union_subset ?_ ?_)
      · exact helim'
      · exact hsub.trans Finset.subset_union_right

/-- C2 witness: one announcement on the concrete demo model. -/
theorem c2_witness :
    Disjoint mAfterSD.worlds mAfterSD.eliminated ∧ mAfterSD.worlds ⊆ mDemo.worlds ∧
    mDemo.eliminated ⊆ mAfterSD.eliminated ∧
    mAfterSD.eliminated ⊆ mDemo.eliminated ∪ mDemo.worlds ∧
    mAfterSD.worlds.card ≤ mDemo.worlds.card ∧
    mDemo.eliminated.card ≤ mAfterSD.eliminated.card :=
  c2_elimination_monotone [pSD] mDemo mAfterSD (by decide) (by decide)

/-- C7: an immediate repetition of the same announcement eliminates
nothing: whenever the first call returns normally, the second call on
the resulting model returns 0 and leaves the model unchanged. -/
theorem c7_announcement_idempotent (m : KripkeModel) (p : Str) (n : Nat) (m' : KripkeModel)
    (h : public_announcement m p = Except.ok (n, m')) :
    public_announcement m' p = Except.ok (0, m') := by
  obtain ⟨hw, _, _, hok⟩ := pub_ok_spec m p n m' h
  have hall : ∀ w ∈ m'.worlds, World.satisfies w p = Except.ok true := by
    intro w hw'
    rw [hw] at hw'
    rw [Finset.mem_sdiff, Finset.mem_filter] at hw'
    obtain ⟨hmem, hnf⟩ := hw'
    rcases satErr_false_cases w p (hok w hmem) with ht | hf
    · exact ht
    · exact absurd ⟨hmem, hf⟩ hnf
  have hfilter : m'.worlds.filter (fun w => World.satisfies w p = Except.ok false) = ∅ := by
    refine Finset.filter_false_of_mem ?_
    intro w hw'
    rw [hall w hw']
    simp
  unfold public_announcement
  rw [if_neg]
  · simp only [hfilter, Finset.card_empty, Finset.sdiff_empty, Finset.union_empty]
  · rintro ⟨w, hw', herr⟩
    unfold satErr at herr
    rw [hall w hw'] at herr
    simp at herr

/-- C7 witness: repeating `has_move:Swords Dance` on the demo model. -/
theorem c7_witness : public_announcement mAfterSD pSD = Except.ok (0, mAfterSD) :=
  c7_announcement_idempotent mDemo pSD 1 mAfterSD (by decide)

/-- C10: when the proposition raises during the elimination scan, the
model is unchanged: the set of worlds to drop is fully computed before
either collection is mutated, so the error propagates with `worlds`
and `eliminated` exactly as they were. -/
theorem c10_error_leaves_model_unchanged (m : KripkeModel) (p : Str) (e : Str)
    (m' : KripkeModel) (h : public_announcement m p = Except.error (e, m')) :
    m'.worlds = m.worlds ∧ m'.eliminated = m.eliminated := by
  obtain ⟨_, hm⟩ := pub_error_spec m p e m' h
  rw [hm]
  exact ⟨rfl, rfl⟩

/-- C10 witness: a malformed proposition on the non-empty demo model. -/
theorem c10_witness : mDemo.worlds = mDemo.worlds ∧ mDemo.eliminated = mDemo.eliminated :=
  c10_error_leaves_model_unchanged mDemo pBad (unknownMsg pBad) mDemo (by decide)

/-- C3 counterexample: on an empty model a proposition with an
unrecognized kind marker is never evaluated, so all four operations
return normal values instead of failing — refuting the claim for the
empty-surviving case it explicitly includes. -/
theorem c3_counterexample :
    public_announcement KripkeModel.empty pBad = Except.ok (0, KripkeModel.empty) ∧
    knows KripkeModel.empty pBad = Except.ok true ∧
    possibly KripkeModel.empty pBad = Except.ok false ∧
    probability KripkeModel.empty pBad = Except.ok 0 := by
  refine ⟨by decide, by decide, by decide, by decide⟩

/-- C3 (amended): when `worlds` is non-empty, every operation that
evaluates a proposition with an unrecognized kind marker fails with
the unknown-format error and yields no normal result; when `worlds` is
empty the proposition is never evaluated and the operations return
their degenerate values. -/
theorem c3_malformed_raises (m : KripkeModel) (p : Str) (hne : m.worlds.Nonempty)
    (hp : recognizedProp p = false) :
    public_announcement m p = Except.error (unknownMsg p, m) ∧
    knows m p = Except.error (unknownMsg p) ∧
    possibly m p = Except.error (unknownMsg p) ∧
    probability m p = Except.error (unknownMsg p) := by
  have hex : ∃ w ∈ m.worlds, satErr w p = true := by
    obtain ⟨w, hw⟩ := hne
    refine ⟨w, hw, ?_⟩
    rw [satErr_eq, hp]
    rfl
  have hne' : ¬(m.worlds = ∅) := Finset.nonempty_iff_ne_empty.mp hne
  refine ⟨?_, ?_, ?_, ?_⟩ <;>
    simp [public_announcement, knows, possibly, probability, hex, hne']

/-- C3 witness: the malformed proposition on the non-empty demo model. -/
theorem c3_witness :
    public_announcement mDemo pBad = Except.error (unknownMsg pBad, mDemo) ∧
    knows mDemo pBad = Except.error (unknownMsg pBad) ∧
    possibly mDemo pBad = Except.error (unknownMsg pBad) ∧
    probability mDemo pBad = Except.error (unknownMsg pBad) :=
  c3_malformed_raises mDemo pBad (by decide) (by decide)

/-- C4: once `worlds` is empty, `knows` is true and `possibly` is
false for every proposition string — the proposition is not even
evaluated, so this includes malformed ones. -/
theorem c4_vacuous_truth (m : KripkeModel) (p : Str) (h : m.worlds = ∅) :
    knows m p = Except.ok true ∧ possibly m p = Except.ok false := by
  constructor
  · simp [knows, h]
  · simp [possibly, h]

/-- C4 witness: the empty model with a concrete proposition. -/
theorem c4_witness :
    knows KripkeModel.empty pEQ = Except.ok true ∧
    possibly KripkeModel.empty pEQ = Except.ok false :=
  c4_vacuous_truth KripkeModel.empty pEQ rfl

/-- C6: any value `probability` returns lies in `[0, 1]`; it returns 0
on an empty model; and it returns 1 whenever `knows` is true on a
non-empty model. -/
theorem c6_probability_bounds (m : KripkeModel) (p : Str) :
    (∀ q : ℚ, probability m p = Except.ok q → 0 ≤ q ∧ q ≤ 1) ∧
    (m.worlds = ∅ → probability m p = Except.ok 0) ∧
    (m.worlds.Nonempty → knows m p = Except.ok true → probability m p = Except.ok 1) := by
  refine ⟨?_, ?_, ?_⟩
  · intro q hq
    unfold probability at hq
    split at hq
    · injection hq with hq
      subst hq
      norm_num
    · split at hq
      · exact absurd hq (by simp)
      · injection hq with hq
        subst hq
        next hne _ =>
        have hpos : 0 < m.worlds.card :=
          Finset.card_pos.mpr (Finset.nonempty_iff_ne_empty.mpr hne)
        constructor
        · positivity
        · rw [div_le_one (by exact_mod_cast hpos)]
          exact_mod_cast Finset.card_filter_le _ _
  · intro h
    simp [probability, h]
  · intro hne hk
    have hne' : ¬(m.worlds = ∅) := Finset.nonempty_iff_ne_empty.mp hne
    unfold knows at hk
    rw [if_neg hne'] at hk
    split at hk
    · exact absurd hk (by simp)
    · next hnoerr =>
      injection hk with hk
      have hall : ∀ w ∈ m.worlds, World.satisfies w p = Except.ok true :=
        of_decide_eq_true hk
      have hfull : m.worlds.filter (fun w => World.satisfies w p = Except.ok true) =
          m.worlds := Finset.filter_true_of_mem hall
      unfold probability
      rw [if_neg hne', if_neg hnoerr, hfull]
      have hcard : (m.worlds.card : ℚ) ≠ 0 := by
        have hpos : 0 < m.worlds.card :=
          Finset.card_pos.mpr (Finset.nonempty_iff_ne_empty.mpr hne')
        exact_mod_cast Nat.pos_iff_ne_zero.mp hpos
      rw [div_self hcard]

/-- C6 witness: the three parts instantiated on concrete models. -/
theorem c6_witness :
    (0 ≤ (1 : ℚ) ∧ (1 : ℚ) ≤ 1) ∧
    probability KripkeModel.empty pEQ = Except.ok 0 ∧
    probability mDemo pEQ = Except.ok 1 :=
  ⟨(c6_probability_bounds mDemo pEQ).1 1
     ((c6_probability_bounds mDemo pEQ).2.2 (by decide) (by decide)),
   (c6_probability_bounds KripkeModel.empty pEQ).2.1 rfl,
   (c6_probability_bounds mDemo pEQ).2.2 (by decide) (by decide)⟩

theorem satisfies_negate (w : World) (p : Str) (hn : recognizedProp (negate p) = true)
    (hp : recognizedProp p = true) (b : Bool) (hb : World.satisfies w p = Except.ok b) :
    World.satisfies w (negate p) = Except.ok (!b) := by
  rcases recognized_cases p hp with ⟨v, rfl⟩ | ⟨v, rfl⟩ | ⟨v, rfl⟩ | ⟨v, rfl⟩ | ⟨v, rfl⟩
  · injection hb with hb
    subst hb
    have h1 : World.satisfies w (negate (chars "has_move:" ++ v)) =
        Except.ok (decide (v ∉ w.moveset)) := rfl
    rw [h1, decide_not]
    rfl
  · injection hb with hb
    subst hb
    have h1 : World.satisfies w (negate (chars "has_item:" ++ v)) =
        Except.ok (decide (w.item ≠ v)) := rfl
    rw [h1, decide_not]
    rfl
  · have h1 : recognizedProp (negate (chars "has_ability:" ++ v)) = false := rfl
    rw [h1] at hn
    simp at hn
  · injection hb with hb
    subst hb
    have h1 : World.satisfies w (negate (chars "not_has_move:" ++ v)) =
        Except.ok (decide (v ∈ w.moveset)) := rfl
    rw [h1, decide_not, Bool.not_not]
    rfl
  · injection hb with hb
    subst hb
    have h1 : World.satisfies w (negate (chars "not_has_item:" ++ v)) =
        Except.ok (decide (w.item = v)) := rfl
    rw [h1, decide_not, Bool.not_not]
    rfl

/-- C5 counterexample: on the non-empty demo model and the ability
proposition, `knows` returns a boolean but `possibly` of the negation
raises — the source recognizes no `not_has_ability` kind — so the
claimed duality equation fails. -/
theorem c5_counterexample :
    knows mDemo pAbility = Except.ok true ∧
    possibly mDemo (negate pAbility) = Except.error (unknownMsg (negate pAbility)) ∧
    knows mDemo pAbility ≠ Except.map (fun b => !b) (possibly mDemo (negate pAbility)) := by
  refine ⟨by decide, by decide, by decide⟩

/-- C5 (amended): `knows p` equals the negation of
`possibly (negate p)` on a non-empty model for every proposition whose
kind and negated kind are both recognized (all move and item
propositions); for ability propositions the negation is unrecognized
and `possibly` raises instead. -/
theorem c5_knows_possibly_duality (m : KripkeModel) (p : Str) (hne : m.worlds.Nonempty)
    (hp : recognizedProp p = true) (hn : recognizedProp (negate p) = true) :
    knows m p = Except.map (fun b => !b) (possibly m (negate p)) := by
  have hnoerr : ¬∃ w ∈ m.worlds, satErr w p = true := by
    rintro ⟨w, _, herr⟩
    rw [satErr_eq, hp] at herr
    simp at herr
  have hnoerr' : ¬∃ w ∈ m.worlds, satErr w (negate p) = true := by
    rintro ⟨w, _, herr⟩
    rw [satErr_eq, hn] at herr
    simp at herr
  have hne' : ¬(m.worlds = ∅) := Finset.nonempty_iff_ne_empty.mp hne
  unfold knows possibly
  rw [if_neg hne', if_neg hnoerr, if_neg hnoerr']
  simp only [Except.map]
  rw [← decide_not]
  refine congrArg Except.ok ?_
  rw [decide_eq_decide]
  constructor
  · rintro hall ⟨w, hw, hsat⟩
    have := satisfies_negate w p hn hp true (hall w hw)
    rw [this] at hsat
    simp at hsat
  · intro hnex w hw
    rcases satisfies_total w p hp with ht | hf
    · exact ht
    · exact absurd ⟨w, hw, satisfies_negate w p hn hp false hf⟩ hnex

/-- C5 witness: duality on the demo model for a move proposition. -/
theorem c5_witness :
    knows mDemo pSD = Except.map (fun b => !b) (possibly mDemo (negate pSD)) :=
  c5_knows_possibly_duality mDemo pSD (by decide) (by decide) (by decide)

/-- C8 counterexample: a negated ability proposition reaches the
unknown-kind error branch, so the encoding the claim lists does not
keep that branch unreachable. -/
theorem c8_counterexample :
    World.satisfies gw0 (chars "not_has_ability:Levitate") =
      Except.error (unknownMsg (chars "not_has_ability:Levitate")) := by
  decide

/-- C8 (amended): `satisfies` evaluates move and item propositions of
either polarity and positive ability propositions to a boolean without
reaching the error branch, but `not_has_ability` is not a recognized
kind: it reaches the unknown-kind error branch. -/
theorem c8_satisfies_recognized_kinds (w : World) (v : Str) :
    World.satisfies w (chars "has_move:" ++ v) = Except.ok (decide (v ∈ w.moveset)) ∧
    World.satisfies w (chars "has_item:" ++ v) = Except.ok (decide (w.item = v)) ∧
    World.satisfies w (chars "has_ability:" ++ v) = Except.ok (decide (w.ability = v)) ∧
    World.satisfies w (chars "not_has_move:" ++ v) = Except.ok (decide (v ∉ w.moveset)) ∧
    World.satisfies w (chars "not_has_item:" ++ v) = Except.ok (decide (w.item ≠ v)) ∧
    World.satisfies w (chars "not_has_ability:" ++ v) =
      Except.error (unknownMsg (chars "not_has_ability:" ++ v)) :=
  ⟨rfl, rfl, rfl, rfl, rfl, rfl⟩

theorem addWorldsLoop_error (pokemon : Str) : ∀ (sets : List PokeSetRecord)
    (m : KripkeModel) (i : Nat) (e : Str) (m' : KripkeModel),
    addWorldsLoop pokemon m sets i = Except.error (e, m') →
    m' = seedRun pokemon m sets i := by
  intro sets
  induction sets with
  | nil =>
    intro m i e m' h
    exact absurd h (by simp [addWorldsLoop])
  | cons s rest ih =>
    intro m i e m' h
    unfold addWorldsLoop at h
    split at h
    · next heq =>
      simp only [Except.error.injEq, Prod.mk.injEq] at h
      rw [← h.2]
      simp only [seedRun, heq]
    · next w heq =>
      rw [ih (m.add_world w) (i + 1) e m' h]
      simp only [seedRun, heq]

theorem seedRun_subsets (pokemon : Str) : ∀ (sets : List PokeSetRecord)
    (m : KripkeModel) (i : Nat),
    m.worlds ⊆ (seedRun pokemon m sets i).worlds ∧
    (seedRun pokemon m sets i).eliminated = m.eliminated := by
  intro sets
  induction sets with
  | nil =>
    intro m i
    exact ⟨Finset.Subset.refl _, rfl⟩
  | cons s rest ih =>
    intro m i
    unfold seedRun
    split
    · exact ⟨Finset.Subset.refl _, rfl⟩
    · next w _ =>
      obtain ⟨h1, h2⟩ := ih (m.add_world w) (i + 1)
      exact ⟨(Finset.subset_insert w m.worlds).trans h1, h2⟩

/-- C9 (amended): seeding processes records in order and is not
all-or-nothing: it fails at the first record missing a required key
with a key-lookup error (the source raises `KeyError`; it has no
`CatalogRecordError`), after the worlds built from the earlier valid
records have already been added.  On failure the model holds exactly
the original worlds plus those of the valid records before the first
invalid one, and `eliminated` is untouched. -/
theorem c9_seeding_not_atomic (m : KripkeModel) (pokemon : Str)
    (sets : List PokeSetRecord) (e : Str) (m' : KripkeModel)
    (h : m.add_worlds_from_pokemon_data pokemon sets = Except.error (e, m')) :
    m' = seedRun pokemon m sets 0 ∧ m.worlds ⊆ m'.worlds ∧
    m'.eliminated = m.eliminated := by
  have hm := addWorldsLoop_error pokemon sets m 0 e m' h
  obtain ⟨h1, h2⟩ := seedRun_subsets pokemon sets m 0
  subst hm
  exact ⟨rfl, h1, h2⟩

/-- C9 counterexample: a batch whose second record is missing the
`item` key fails only after the first record's world is added — the
surviving set is no longer what it was before the call, refuting the
all-or-nothing claim. -/
theorem c9_counterexample :
    KripkeModel.empty.add_worlds_from_pokemon_data (chars "Garchomp") [goodRec, badRec] =
      Except.error (keyErrMsg (chars "item"), mSeedFail) ∧
    mSeedFail.worlds ≠ KripkeModel.empty.worlds := by
  refine ⟨by decide, by decide⟩

/-- C9 witness: the amended seeding theorem on the concrete failing
batch. -/
theorem c9_witness :
    mSeedFail = seedRun (chars "Garchomp") KripkeModel.empty [goodRec, badRec] 0 ∧
    KripkeModel.empty.worlds ⊆ mSeedFail.worlds ∧
    mSeedFail.eliminated = KripkeModel.empty.eliminated :=
  c9_seeding_not_atomic KripkeModel.empty (chars "Garchomp") [goodRec, badRec]
    (keyErrMsg (chars "item")) mSeedFail (by decide)

end PokeEpistemic
